import Mathlib

/-!
The package virgo: a bulk HTTP fetcher with a fixed pool of workers.

A shallow embedding of `pkg/options/options.go` and `pkg/virgo/virgo.go`.

* Pure code (`options.New`, the body of `invokeRequest`) is embedded as Lean functions.
* The goroutines of `Client.Start` are embedded as an executable small-step function
  `step` over an explicit `State`: one `Action` is one atomic step of the goroutine
  running `Start`, of one worker, or of the caller receiving from the result channel.
  A run is a list of actions (`exec`); every interleaving is a list of actions.
* The Go runtime and the standard library are not part of the repository.  Channels,
  `sync.WaitGroup`, `http.Header.Set` and `http.Client.Do` are modelled after their
  documented behaviour; what the network answers is a parameter (`Env`).
* The package variable `o` (the active configuration) is the parameter `o`; it is
  fixed for the duration of one run.
* The caller passes a fresh, open result channel of any capacity and may receive from
  it at any time.
-/

namespace Virgo

/-! ## Data model -/

/-- A Go `error` value (its message). -/
abbrev Error := String

/-- A Go `[]byte`. -/
abbrev Bytes := List Nat

/-- The struct `options.Options`.  `Header` is a Go map: the list gives its entries in the order
in which a `range` over it visits them (Go leaves that order unspecified). -/
structure Options where
  Method : String
  Header : List (String × String)
  Body : Bytes
  UserAgent : String
  Cookie : String
  TimeoutMs : Int
  Concurrency : Int
  FollowRedirects : Bool
  deriving DecidableEq, Repr

/-- The constant `http.MethodGet`. -/
def MethodGet : String := "GET"

/-- The function `options.New`. -/
def Options.New : Options :=
  { Method := MethodGet
    Header := []
    Body := []
    UserAgent := ""
    Cookie := ""
    TimeoutMs := 60000
    Concurrency := 8
    FollowRedirects := false }

/-- The `request` struct of `virgo.go`. -/
structure request where
  url : String
  method : String
  body : Bytes
  header : List (String × String)
  deriving DecidableEq, Repr

/-! ## `http.Header` -/

/-- The type `http.Header`: canonical key to values. -/
abbrev Header := List (String × List String)

/-- The bytes allowed in a header field name (`validHeaderFieldByte` of `net/textproto`). -/
def validHeaderFieldByte (c : Char) : Bool :=
  c.isAlphanum || "!#$%&*+-.^_|~".toList.contains c || c == Char.ofNat 39 ||
    c == Char.ofNat 96

/-- The canonicalisation loop of `textproto.CanonicalMIMEHeaderKey`: upper case for the
first letter and for a letter after a dash, lower case for every other letter. -/
def canonicalize : Bool → List Char → List Char
  | _, [] => []
  | upper, c :: cs =>
    let c1 := if upper then c.toUpper else c.toLower
    c1 :: canonicalize (c1 == '-') cs

/-- The function `textproto.CanonicalMIMEHeaderKey`: a key with a byte that is not allowed in a field
name is returned unchanged. -/
def CanonicalMIMEHeaderKey (s : String) : String :=
  if s.toList.all validHeaderFieldByte then String.mk (canonicalize true s.toList) else s

/-- The method `Header.Set`: "sets the header entries associated with key to the single element
value.  It replaces any existing values associated with key.  The key is case
insensitive; it is canonicalized by `textproto.CanonicalMIMEHeaderKey`." -/
def Header.Set (h : Header) (key value : String) : Header :=
  (CanonicalMIMEHeaderKey key, [value]) ::
    h.filter (fun e => !(e.1 == CanonicalMIMEHeaderKey key))

/-- The method `Header.Values`: all values associated with the (canonicalised) key. -/
def Header.Values (h : Header) (key : String) : List String :=
  match h.find? (fun e => e.1 == CanonicalMIMEHeaderKey key) with
  | some e => e.2
  | none => []

/-- The method `Header.Get`: the first value associated with the key, `""` if there is none. -/
def Header.Get (h : Header) (key : String) : String :=
  (Header.Values h key).head?.getD ""

/-! ## Requests, responses, results -/

/-- The part of `*http.Request` that `invokeRequest` builds. -/
structure HttpRequest where
  Method : String
  URL : String
  Header : Header
  Body : Bytes
  deriving DecidableEq, Repr

/-- The part of `*http.Response` the claims speak about. -/
structure Response where
  StatusCode : Nat
  Header : Header
  deriving DecidableEq, Repr

/-- The `Result` struct of `virgo.go`; `none` is Go's `nil`. -/
structure Result where
  Response : Option Response
  Body : Option Bytes
  Err : Option Error
  deriving DecidableEq, Repr

/-- What the world outside the repository answers during one call of `invokeRequest`:
the outcome of `http.NewRequest` for a method and a URL string (an error for an invalid
method or a URL that does not parse, else the URL as `url.Parse` parsed and re-encoded
it), the behaviour of `httpClient.Do` (an error, or a non-nil response), the outcome of
`ioutil.ReadAll(resp.Body)` and the error (or `none`) of
`io.Copy(ioutil.Discard, resp.Body)`. -/
structure Env where
  newRequest : String → String → Except Error String
  Do : HttpRequest → Except Error Response
  readAll : Except Error Bytes
  copy : Option Error

/-- Lines 133-148 of `invokeRequest` when `http.NewRequest` succeeds with the parsed URL
`u`: the fresh request (an empty method stands for GET, the header is empty) gets the
built-in `User-Agent` and `Cookie` headers, then every entry of the descriptor's header
map, in `range` order. -/
def buildRequest (o : Options) (r : request) (u : String) : HttpRequest :=
  let h0 : Header := []
  let h1 := if o.UserAgent != "" then Header.Set h0 "User-Agent" o.UserAgent else h0
  let h2 := if o.Cookie != "" then Header.Set h1 "Cookie" o.Cookie else h1
  let h3 := r.header.foldl (fun h kv => Header.Set h kv.1 kv.2) h2
  { Method := if r.method = "" then "GET" else r.method, URL := u, Header := h3,
    Body := r.body }

/-- The function `invokeRequest`: the triple it returns, and the requests it handed to
`httpClient.Do` (none or one). -/
def invokeRequest (o : Options) (env : Env) (r : request) :
    (Option Response × Option Bytes × Option Error) × List HttpRequest :=
  match env.newRequest r.method r.url with
  | .error err => ((none, none, some err), [])
  | .ok u =>
    let req := buildRequest o r u
    match env.Do req with
    | .error err => ((none, none, some err), [req])
    | .ok resp =>
      match env.readAll with
      | .error err => ((none, none, some err), [req])
      | .ok body =>
        match env.copy with
        | some err => ((none, none, some err), [req])
        | none => ((some resp, some body, none), [req])

/-- The function `consumeRequest` up to the channel send: the `Result` it is about to publish, and
the requests handed to `httpClient.Do`. -/
def consumeRequest (o : Options) (env : Env) (r : request) : Result × List HttpRequest :=
  let out := invokeRequest o env r
  ({ Response := out.1.1, Body := out.1.2.1, Err := out.1.2.2 }, out.2)

/-! ## The default HTTP client -/

/-- The error `http.ErrUseLastResponse`. -/
def ErrUseLastResponse : Error := "net/http: use last response"

/-- The part of `http.Client` that `initHTTPClient` sets.  `Timeout` is a
`time.Duration` (an `int64` of nanoseconds).  The `CheckRedirect` closure reads the
package variable `o` when it is called, so it takes the active configuration. -/
structure HttpClient where
  Timeout : Int
  CheckRedirect : Options → HttpRequest → List HttpRequest → Option Error

/-- Go's `int64` multiplication wraps around. -/
def wrapInt64 (x : Int) : Int := (x + 2 ^ 63) % 2 ^ 64 - 2 ^ 63

/-- The function `initHTTPClient`. -/
def initHTTPClient (o : Options) : HttpClient :=
  { Timeout := wrapInt64 (o.TimeoutMs * 1000000)
    CheckRedirect := fun active _ _ =>
      if !active.FollowRedirects then some ErrUseLastResponse else none }

/-- What `http.Client.Do` needs from the world: the answer of one round trip
(`c.send`), and the request of the next hop that `Do` builds from a redirect response
(an error when the `Location` header does not parse against the URL of the request). -/
structure Wire where
  send : HttpRequest → Except Error Response
  nextHop : HttpRequest → Response → Except Error HttpRequest

/-- The status codes on which `redirectBehavior` of `net/http` redirects (for 307 and 308
it needs `GetBody`, which `http.NewRequest` sets for the `bytes.Reader` body of
`invokeRequest`). -/
def isRedirect (code : Nat) : Bool :=
  code == 301 || code == 302 || code == 303 || code == 307 || code == 308

/-- The verb `%q` of `fmt` for a string that needs no escaping. -/
def quote (s : String) : String :=
  String.singleton (Char.ofNat 34) ++ s ++ String.singleton (Char.ofNat 34)

/-- The function `urlErrorOp` of `net/http`: the method with its first letter kept and
the rest in lower case. -/
def urlErrorOp (method : String) : String :=
  match method.toList with
  | [] => "Get"
  | c :: cs => String.mk (c :: cs.map Char.toLower)

/-- The message of the `*url.Error` in which `Do` wraps every error it returns. -/
def urlError (op url : String) (err : Error) : Error :=
  op ++ " " ++ quote url ++ ": " ++ err

/-- The loop of `http.Client.Do` (`func (c *Client) do` of `net/http`), one hop per
unit of fuel: send the request; return the response when its status is no redirect or
it has no `Location`; return an error when the `Location` does not parse; else ask
`CheckRedirect` for the request of the next hop.  "As a special case, if CheckRedirect
returns ErrUseLastResponse, then the most recent response is returned with its body
unclosed, along with a nil error."  On another error of `CheckRedirect` the error is
returned (with the response, which `invokeRequest` ignores); on `nil` the loop goes on
with the next hop.  `op` is `urlErrorOp` of the first request's method.  The fuel is the
number of hops the client's deadline leaves time for: the send after the last of them
fails with the timeout error.  Second component: the requests handed to `c.send`. -/
def clientDo (c : HttpClient) (active : Options) (wire : Wire) (op : String) :
    Nat → HttpRequest → List HttpRequest → Except Error Response × List HttpRequest
  | 0, req, _ =>
    (.error (urlError op req.URL
      "context deadline exceeded (Client.Timeout exceeded while awaiting headers)"), [req])
  | fuel + 1, req, reqs =>
    match wire.send req with
    | .error err => (.error (urlError op req.URL err), [req])
    | .ok resp =>
      if !isRedirect resp.StatusCode then (.ok resp, [req])
      else if Header.Get resp.Header "Location" = "" then (.ok resp, [req])
      else
        match wire.nextHop req resp with
        | .error err =>
          (.error (urlError op req.URL
            ("failed to parse Location header " ++ quote (Header.Get resp.Header "Location")
              ++ ": " ++ err)), [req])
        | .ok next =>
          match c.CheckRedirect active next (reqs ++ [req]) with
          | some err =>
            if err = ErrUseLastResponse then (.ok resp, [req])
            else (.error (urlError op (Header.Get resp.Header "Location") err), [req])
          | none =>
            let rest := clientDo c active wire op fuel next (reqs ++ [req])
            (rest.1, req :: rest.2)

/-! ## Channels -/

/-- A Go channel: the buffered elements (oldest first), the capacity, and whether it
has been closed. -/
structure Chan (α : Type) where
  buf : List α
  cap : Nat
  closed : Bool
  deriving DecidableEq, Repr

/-- The call `make(chan T, n)`. -/
def Chan.make {α : Type} (n : Nat) : Chan α := { buf := [], cap := n, closed := false }

/-- A send into the buffer of an open channel; `none` when the buffer is full (the
sender blocks). -/
def Chan.send {α : Type} (ch : Chan α) (x : α) : Option (Chan α) :=
  if ch.buf.length < ch.cap then some { ch with buf := ch.buf ++ [x] } else none

/-- The function `produceRequests`: the sends run on the goroutine of `Start` before any worker
exists, so a send that finds the buffer full would block for ever (`none`). -/
def produceRequests (o : Options) (urls : List String) : Option (Chan request) :=
  urls.foldlM
    (fun ch url => Chan.send ch { url := url, body := o.Body, method := o.Method, header := o.Header })
    (Chan.make urls.length)

/-! ## The goroutines of `Client.Start` -/

/-- Where the goroutine running `Start` stands: before `produceRequests`, at the head
of the `for` loop with counter `i`, before `close(requestQueueCh)`, in
`concurrencyWg.Wait()`, before `close(resultCh)`, or returned. -/
inductive MainPc where
  | produce
  | loop (i : Nat)
  | closeQueue
  | wait
  | closeResult
  | done
  deriving DecidableEq, Repr

/-- Where a worker stands: at the receive from `requestQueueCh`, inside `invokeRequest`
with the descriptor it received, at the send of its `Result` on `resultCh`, or
returned (after `concurrencyWg.Done()`). -/
inductive WorkerPc where
  | recv
  | invoke (r : request)
  | send (res : Result)
  | exited
  deriving DecidableEq, Repr

/-- The state of one run of `Start`.  `delivered` holds the Results the caller has
received from `resultCh`; `transportLog` the requests handed to `httpClient.Do`;
`panicked` records a send on the closed result channel. -/
structure State where
  pc : MainPc
  requestQueueCh : Chan request
  resultCh : Chan Result
  wg : Nat
  workers : List WorkerPc
  delivered : List Result
  transportLog : List HttpRequest
  panicked : Bool
  deriving DecidableEq, Repr

/-- One atomic step of a run: the goroutine of `Start` moves; worker `k` moves (`env`
is what the world answers if the step is `invokeRequest`); worker `k` hands its Result
directly to the caller waiting at `resultCh`; the caller takes a Result out of the
buffer of `resultCh`. -/
inductive Action where
  | main
  | worker (k : Nat) (env : Env)
  | handoff (k : Nat)
  | receive

/-- The state in which `Start(urls, resultCh)` is entered, with a fresh result channel
of capacity `cap`. -/
def init (cap : Nat) : State :=
  { pc := .produce
    requestQueueCh := Chan.make 0
    resultCh := Chan.make cap
    wg := 0
    workers := []
    delivered := []
    transportLog := []
    panicked := false }

/-- One step of the goroutine running `Client.Start`, statement by statement:
`produceRequests`, the head of the `for` loop (`concurrencyWg.Add(1)` and the `go`
statement of one iteration are one step: no other goroutine reads the counter before
`Wait`), `close(requestQueueCh)`, `concurrencyWg.Wait()` (enabled when the counter is
zero) and `close(resultCh)`. -/
def Start (o : Options) (urls : List String) (s : State) : Option State :=
  match s.pc with
  | .produce =>
    match produceRequests o urls with
    | some q => some { s with requestQueueCh := q, pc := .loop 0 }
    | none => none
  | .loop i =>
    if (i : Int) < o.Concurrency then
      some { s with wg := s.wg + 1, workers := s.workers ++ [.recv], pc := .loop (i + 1) }
    else some { s with pc := .closeQueue }
  | .closeQueue =>
    some { s with requestQueueCh := { s.requestQueueCh with closed := true }, pc := .wait }
  | .wait => if s.wg = 0 then some { s with pc := .closeResult } else none
  | .closeResult =>
    some { s with resultCh := { s.resultCh with closed := true }, pc := .done }
  | .done => none

/-- One step of worker `k`, the goroutine started in the loop of `Start`: the receive from
`requestQueueCh` (a descriptor, or `concurrencyWg.Done()` and return when the queue is
closed and empty, or blocked), the call of `invokeRequest` inside `consumeRequest`, and
the send on `resultCh` (a send on a closed channel panics). -/
def worker (o : Options) (k : Nat) (env : Env) (s : State) : Option State :=
  match s.workers.get? k with
  | none => none
  | some .recv =>
    match s.requestQueueCh.buf with
    | r :: rest =>
      some { s with requestQueueCh := { s.requestQueueCh with buf := rest },
                    workers := s.workers.set k (.invoke r) }
    | [] =>
      if s.requestQueueCh.closed then
        some { s with wg := s.wg - 1, workers := s.workers.set k .exited }
      else none
  | some (.invoke r) =>
    let out := consumeRequest o env r
    some { s with workers := s.workers.set k (.send out.1),
                  transportLog := s.transportLog ++ out.2 }
  | some (.send res) =>
    if s.resultCh.closed then
      some { s with panicked := true, workers := s.workers.set k .exited }
    else
      match Chan.send s.resultCh res with
      | some ch => some { s with resultCh := ch, workers := s.workers.set k .recv }
      | none => none
  | some .exited => none

/-- Worker `k` sends while the caller waits at the receive: the Result goes straight
to the caller (the buffer is empty then). -/
def stepHandoff (k : Nat) (s : State) : Option State :=
  match s.workers.get? k with
  | some (.send res) =>
    if s.resultCh.closed then none
    else if s.resultCh.buf = [] then
      some { s with delivered := s.delivered ++ [res], workers := s.workers.set k .recv }
    else none
  | _ => none

/-- The caller receives the oldest buffered Result. -/
def stepReceive (s : State) : Option State :=
  match s.resultCh.buf with
  | res :: rest =>
    some { s with resultCh := { s.resultCh with buf := rest },
                  delivered := s.delivered ++ [res] }
  | [] => none

/-- One step of a run; `none` when the action is not enabled (the goroutine is
blocked, has returned, or the program has panicked). -/
def step (o : Options) (urls : List String) (a : Action) (s : State) : Option State :=
  if s.panicked then none
  else
    match a with
    | .main => Start o urls s
    | .worker k env => worker o k env s
    | .handoff k => stepHandoff k s
    | .receive => stepReceive s

/-- A run: the actions are taken in order; `none` when one of them is not enabled. -/
def exec (o : Options) (urls : List String) : List Action → State → Option State
  | [], s => some s
  | a :: as, s =>
    match step o urls a s with
    | some s1 => exec o urls as s1
    | none => none

/-- The Results published on the result stream so far, in the order of their sends. -/
def published (s : State) : List Result := s.delivered ++ s.resultCh.buf

/-- Whether a worker holds a descriptor it took from the queue whose Result is not
yet published. -/
def WorkerPc.busy : WorkerPc → Bool
  | .invoke _ => true
  | .send _ => true
  | _ => false

/-- The number of requests in flight. -/
def inFlight (s : State) : Nat := s.workers.countP WorkerPc.busy

/-- A success: `Response` and `Body` present, `Err` absent. -/
def Result.isSuccess (res : Result) : Bool :=
  res.Response.isSome && res.Body.isSome && res.Err.isNone

/-- A failure: `Err` present, `Response` and `Body` absent. -/
def Result.isFailure (res : Result) : Bool :=
  res.Err.isSome && res.Response.isNone && res.Body.isNone

/-- The errors a run has reported to the caller.  `Start` has no return value: an error
can reach the caller only as the `Err` of a published Result or as a panic. -/
def reportedErrors (s : State) : List Error :=
  (published s).filterMap (fun res => res.Err) ++ (if s.panicked then ["panic"] else [])

/-- The `Do` of the default client of `New`, built under the configuration `o0`, while
`o` is the active configuration. -/
def defaultDo (o0 o : Options) (wire : Wire) (fuel : Nat) (req : HttpRequest) :
    Except Error Response :=
  (clientDo (initHTTPClient o0) o wire (urlErrorOp req.Method) fuel req []).1

/-- A server whose `/old` answers 301 with the Location of `/new`, which answers 200. -/
def redirectingWire : Wire :=
  { send := fun req =>
      if req.URL = "http://example.org/old" then
        .ok { StatusCode := 301, Header := [("Location", ["http://example.org/new"])] }
      else .ok { StatusCode := 200, Header := [] }
    nextHop := fun req _ => .ok { req with URL := "http://example.org/new" } }

/-- A server that answers 301 with the Location `http://[::1`, on which `url.Parse`
fails. -/
def brokenLocationWire : Wire :=
  { send := fun _ => .ok { StatusCode := 301, Header := [("Location", ["http://[::1"])] }
    nextHop := fun _ _ => .error "missing closing bracket in host" }

/-- Some answer of the world, for the steps in which it does not matter. -/
def Env.refuse : Env :=
  { newRequest := fun _ _ => .error "refused", Do := fun _ => .error "refused",
    readAll := .error "refused", copy := none }

/-- A world in which every call succeeds with status 200 and the given body (and
`url.Parse` re-encodes every URL as it is written). -/
def Env.serve (body : Bytes) : Env :=
  { newRequest := fun _ url => .ok url, Do := fun _ => .ok { StatusCode := 200, Header := [] },
    readAll := .ok body, copy := none }

/-! ## Concrete runs -/

/-- A configuration with two workers. -/
def demoOptions : Options := { Options.New with Concurrency := 2 }

/-- The same URL twice. -/
def demoUrls : List String := ["http://example.org/", "http://example.org/"]

/-- A complete run for two URLs and two workers over an unbuffered result channel: one
request succeeds, the other one fails. -/
def demoSchedule : List Action :=
  [.main, .main, .main, .main, .worker 0 Env.refuse, .worker 1 Env.refuse, .main,
   .worker 0 (Env.serve [104, 105]), .worker 1 Env.refuse, .handoff 1, .handoff 0,
   .worker 0 Env.refuse, .worker 1 Env.refuse, .main, .main]

/-- The state after the first nine steps of `demoSchedule`: both requests in flight. -/
def demoMid : State :=
  { pc := .wait
    requestQueueCh := { buf := [], cap := 2, closed := true }
    resultCh := { buf := [], cap := 0, closed := false }
    wg := 2
    workers :=
      [.send { Response := some { StatusCode := 200, Header := [] }, Body := some [104, 105],
               Err := none },
       .send { Response := none, Body := none, Err := some "refused" }]
    delivered := []
    transportLog := [{ Method := "GET", URL := "http://example.org/", Header := [], Body := [] }]
    panicked := false }

/-- The state at the end of `demoSchedule`. -/
def demoFinal : State :=
  { pc := .done
    requestQueueCh := { buf := [], cap := 2, closed := true }
    resultCh := { buf := [], cap := 0, closed := true }
    wg := 0
    workers := [.exited, .exited]
    delivered :=
      [{ Response := none, Body := none, Err := some "refused" },
       { Response := some { StatusCode := 200, Header := [] }, Body := some [104, 105],
         Err := none }]
    transportLog := [{ Method := "GET", URL := "http://example.org/", Header := [], Body := [] }]
    panicked := false }

/-- A complete run for two workers and no URL. -/
def idleSchedule : List Action :=
  [.main, .main, .main, .main, .main, .worker 1 Env.refuse, .worker 0 Env.refuse, .main, .main]

/-- The state at the end of `idleSchedule`, with a result channel of capacity 4. -/
def idleFinal : State :=
  { pc := .done
    requestQueueCh := { buf := [], cap := 0, closed := true }
    resultCh := { buf := [], cap := 4, closed := true }
    wg := 0
    workers := [.exited, .exited]
    delivered := []
    transportLog := []
    panicked := false }

/-- The only complete run when no worker is started. -/
def noWorkerSchedule : List Action := [.main, .main, .main, .main, .main]

/-- The state at the end of `noWorkerSchedule` for two URLs. -/
def noWorkerFinal : State :=
  { pc := .done
    requestQueueCh :=
      { buf := [{ url := "http://example.org/", method := "GET", body := [], header := [] },
                { url := "http://example.org/", method := "GET", body := [], header := [] }]
        cap := 2, closed := true }
    resultCh := { buf := [], cap := 0, closed := true }
    wg := 0
    workers := []
    delivered := []
    transportLog := []
    panicked := false }

/-- Whether a worker has not returned yet. -/
def WorkerPc.live : WorkerPc → Bool
  | .exited => false
  | _ => true

/-- Whether a worker is inside `invokeRequest`. -/
def WorkerPc.invoking : WorkerPc → Bool
  | .invoke _ => true
  | _ => false

/-- The position of the goroutine of `Start` as a number, in program order. -/
def MainPc.rank : MainPc → Nat
  | .produce => 0
  | .loop _ => 1
  | .closeQueue => 2
  | .wait => 3
  | .closeResult => 4
  | .done => 5

/-- The steps a worker still takes by itself from where it stands (a descriptor it
holds costs the invoke, the send and the caller's receive). -/
def WorkerPc.weight : WorkerPc → Nat
  | .recv => 1
  | .invoke _ => 4
  | .send _ => 3
  | .exited => 0

/-- The steps the goroutine of `Start` still takes from where it stands, with two for
every worker it has yet to start and four for every descriptor it has yet to queue. -/
def MainPc.weight (o : Options) (urls : List String) : MainPc → Nat
  | .produce => 4 * urls.length + 2 * o.Concurrency.toNat + 6
  | .loop i => 2 * (o.Concurrency.toNat - i) + 4
  | .closeQueue => 3
  | .wait => 2
  | .closeResult => 1
  | .done => 0

/-- What holds in every state a run of `Start` can reach. -/
structure Inv (o : Options) (urls : List String) (s : State) : Prop where
  noPanic : s.panicked = false
  resLen : s.resultCh.buf.length ≤ s.resultCh.cap
  fresh : s.pc = .produce → s.workers = []
  idle : s.workers = [] → published s = [] ∧ s.transportLog = []
  conserve : s.pc ≠ .produce →
    s.requestQueueCh.buf.length + inFlight s + (published s).length = urls.length
  logged : s.pc ≠ .produce →
    s.transportLog.length + s.workers.countP WorkerPc.invoking
      + s.requestQueueCh.buf.length ≤ urls.length
  wgLive : s.wg = s.workers.countP WorkerPc.live
  spawned : ∀ i, s.pc = .loop i → s.workers.length = i ∧ i ≤ o.Concurrency.toNat
  pool : 2 ≤ s.pc.rank → s.workers.length = o.Concurrency.toNat
  queueClosed : s.requestQueueCh.closed = true ↔ 3 ≤ s.pc.rank
  drained : s.wg < s.workers.length → s.requestQueueCh.buf = []
  joined : 4 ≤ s.pc.rank → s.wg = 0
  resClosed : s.resultCh.closed = true ↔ s.pc = .done

/-- A bound on the number of steps any run can still take from a state. -/
def measure (o : Options) (urls : List String) (s : State) : Nat :=
  MainPc.weight o urls s.pc + 4 * s.requestQueueCh.buf.length
    + (s.workers.map WorkerPc.weight).sum + s.resultCh.buf.length

end Virgo

namespace Virgo

/-! ## Lists of workers -/

theorem countP_set_add (p : WorkerPc → Bool) :
    ∀ (l : List WorkerPc) (k : Nat) (w x : WorkerPc), l.get? k = some w →
      (l.set k x).countP p + (if p w then 1 else 0) = l.countP p + (if p x then 1 else 0)
  | [], k, w, x, h => by simp at h
  | a :: l, 0, w, x, h => by
    simp at h
    subst h
    simp only [List.set_cons_zero, List.countP_cons]
    omega
  | a :: l, k + 1, w, x, h => by
    simp at h
    have ih := countP_set_add p l k w x (by simpa using h)
    simp only [List.set_cons_succ, List.countP_cons]
    omega

theorem weight_set_add :
    ∀ (l : List WorkerPc) (k : Nat) (w x : WorkerPc), l.get? k = some w →
      ((l.set k x).map WorkerPc.weight).sum + w.weight
        = (l.map WorkerPc.weight).sum + x.weight
  | [], k, w, x, h => by simp at h
  | a :: l, 0, w, x, h => by
    simp at h
    subst h
    simp only [List.set_cons_zero, List.map_cons, List.sum_cons]
    omega
  | a :: l, k + 1, w, x, h => by
    simp at h
    have ih := weight_set_add l k w x (by simpa using h)
    simp only [List.set_cons_succ, List.map_cons, List.sum_cons]
    omega

theorem exists_live_worker (l : List WorkerPc) (h : 0 < l.countP WorkerPc.live) :
    ∃ k w, l.get? k = some w ∧ w.live = true := by
  obtain ⟨w, hw, hl⟩ := List.countP_pos_iff.mp h
  obtain ⟨k, hk⟩ := List.mem_iff_get?.mp hw
  exact ⟨k, w, hk, hl⟩

/-! ## `produceRequests` never blocks -/

theorem foldlM_send (o : Options) :
    ∀ (urls : List String) (ch : Chan request), ch.buf.length + urls.length ≤ ch.cap →
      urls.foldlM
          (fun ch url =>
            Chan.send ch { url := url, body := o.Body, method := o.Method, header := o.Header })
          ch
        = some { ch with
            buf := ch.buf ++ urls.map (fun url =>
              { url := url, body := o.Body, method := o.Method, header := o.Header }) }
  | [], ch, _ => by simp
  | u :: us, ch, h => by
    have hlt : ch.buf.length < ch.cap := by simp at h; omega
    have hs : Chan.send ch { url := u, body := o.Body, method := o.Method, header := o.Header }
        = some { ch with buf := ch.buf ++
            [{ url := u, body := o.Body, method := o.Method, header := o.Header }] } := by
      simp [Chan.send, hlt]
    rw [List.foldlM_cons, hs, Option.bind_eq_bind, Option.some_bind, foldlM_send o us]
    · simp
    · simp at h ⊢; omega

theorem produceRequests_eq (o : Options) (urls : List String) :
    produceRequests o urls
      = some { buf := urls.map (fun url =>
                 { url := url, body := o.Body, method := o.Method, header := o.Header })
               cap := urls.length
               closed := false } := by
  unfold produceRequests
  rw [foldlM_send o urls (Chan.make urls.length) (by simp [Chan.make])]
  simp [Chan.make]

/-! ## The invariant of a run -/

theorem init_inv (o : Options) (urls : List String) (cap : Nat) : Inv o urls (init cap) := by
  constructor <;> simp [init, Chan.make, published, MainPc.rank]

theorem Start_step_inv {o : Options} {urls : List String} {s s1 : State}
    (h : Inv o urls s) (hs : Start o urls s = some s1) : Inv o urls s1 := by
  obtain ⟨h1, h2, h3, h0, h4, h5, h6, h7, h8, h9, h10, h11, h12⟩ := h
  unfold Start at hs
  split at hs
  · rename_i hpc
    rw [produceRequests_eq] at hs
    simp only [Option.some.injEq] at hs
    subst hs
    have := h3 hpc
    constructor <;> simp_all [published, inFlight, MainPc.rank]
  · rename_i i hpc
    split at hs
    · rename_i hlt
      simp only [Option.some.injEq] at hs
      subst hs
      have := h7 i hpc
      constructor <;> simp_all [published, inFlight, MainPc.rank, WorkerPc.busy,
        WorkerPc.live, WorkerPc.invoking, List.countP_append]
      all_goals omega
    · rename_i hlt
      simp only [Option.some.injEq] at hs
      subst hs
      have := h7 i hpc
      constructor <;> simp_all [published, inFlight, MainPc.rank]
      all_goals omega
  · rename_i hpc
    simp only [Option.some.injEq] at hs
    subst hs
    constructor <;> simp_all [published, inFlight, MainPc.rank]
  · rename_i hpc
    split at hs
    · simp only [Option.some.injEq] at hs
      subst hs
      constructor <;> simp_all [published, inFlight, MainPc.rank]
    · simp at hs
  · rename_i hpc
    simp only [Option.some.injEq] at hs
    subst hs
    constructor <;> simp_all [published, inFlight, MainPc.rank]
  · simp at hs

theorem consumeRequest_log_le (o : Options) (env : Env) (r : request) :
    (consumeRequest o env r).2.length ≤ 1 := by
  simp only [consumeRequest, invokeRequest]
  split
  · simp
  · split
    · simp
    · split
      · simp
      · split <;> simp

theorem Inv.not_produce {o : Options} {urls : List String} {s : State} {k : Nat}
    {w : WorkerPc} (h : Inv o urls s) (hw : s.workers.get? k = some w) :
    s.pc ≠ .produce := by
  intro hpc
  have := h.fresh hpc
  simp [this] at hw

set_option maxHeartbeats 1000000 in
theorem worker_step_inv {o : Options} {urls : List String} {k : Nat} {env : Env}
    {s s1 : State} (h : Inv o urls s) (hs : worker o k env s = some s1) :
    Inv o urls s1 := by
  have hnp := fun w (hw : s.workers.get? k = some w) => h.not_produce hw
  obtain ⟨h1, h2, h3, h0, h4, h5, h6, h7, h8, h9, h10, h11, h12⟩ := h
  unfold worker at hs
  split at hs
  · simp at hs
  · rename_i hw
    have hpc := hnp _ hw
    have hne : s.workers ≠ [] := by
      intro hnil
      simp [hnil] at hw
    have h4 := h4 hpc
    have h5 := h5 hpc
    have cb := fun x => countP_set_add WorkerPc.busy s.workers k _ x hw
    have cl := fun x => countP_set_add WorkerPc.live s.workers k _ x hw
    have ci := fun x => countP_set_add WorkerPc.invoking s.workers k _ x hw
    split at hs
    · rename_i r rest hq
      simp only [Option.some.injEq] at hs
      subst hs
      have cb := cb (.invoke r)
      have cl := cl (.invoke r)
      have ci := ci (.invoke r)
      simp only [WorkerPc.busy, WorkerPc.live, WorkerPc.invoking] at cb cl ci
      constructor <;> simp_all [-List.countP_eq_zero, -List.countP_pos_iff, published, inFlight, MainPc.rank]
      all_goals omega
    · rename_i hq
      split at hs
      · rename_i hc
        simp only [Option.some.injEq] at hs
        subst hs
        have cb := cb .exited
        have cl := cl .exited
        have ci := ci .exited
        simp only [WorkerPc.busy, WorkerPc.live, WorkerPc.invoking] at cb cl ci
        constructor <;> simp_all [-List.countP_eq_zero, -List.countP_pos_iff, published, inFlight, MainPc.rank]
        all_goals omega
      · simp at hs
  · rename_i r hw
    have hpc := hnp _ hw
    have hne : s.workers ≠ [] := by
      intro hnil
      simp [hnil] at hw
    have h4 := h4 hpc
    have h5 := h5 hpc
    have cb := countP_set_add WorkerPc.busy s.workers k _ (.send (consumeRequest o env r).1) hw
    have cl := countP_set_add WorkerPc.live s.workers k _ (.send (consumeRequest o env r).1) hw
    have ci := countP_set_add WorkerPc.invoking s.workers k _ (.send (consumeRequest o env r).1) hw
    have hlen := consumeRequest_log_le o env r
    simp only [Option.some.injEq] at hs
    subst hs
    simp only [WorkerPc.busy, WorkerPc.live, WorkerPc.invoking] at cb cl ci
    constructor <;> simp_all [-List.countP_eq_zero, -List.countP_pos_iff, published, inFlight, MainPc.rank]
    all_goals omega
  · rename_i res hw
    have hpc := hnp _ hw
    have hne : s.workers ≠ [] := by
      intro hnil
      simp [hnil] at hw
    have h4 := h4 hpc
    have h5 := h5 hpc
    have hlive : 0 < s.workers.countP WorkerPc.live :=
      List.countP_pos_iff.mpr ⟨_, List.mem_iff_get?.mpr ⟨k, hw⟩, rfl⟩
    have hopen : s.resultCh.closed = false := by
      cases hc : s.resultCh.closed
      · rfl
      · have hd := h12.mp hc
        have := h11 (by simp [hd, MainPc.rank])
        omega
    simp only [hopen, Bool.false_eq_true, if_false] at hs
    by_cases hroom : s.resultCh.buf.length < s.resultCh.cap
    · simp only [Chan.send, hroom, if_true, Option.some.injEq] at hs
      subst hs
      have cb := countP_set_add WorkerPc.busy s.workers k _ .recv hw
      have cl := countP_set_add WorkerPc.live s.workers k _ .recv hw
      have ci := countP_set_add WorkerPc.invoking s.workers k _ .recv hw
      simp only [WorkerPc.busy, WorkerPc.live, WorkerPc.invoking] at cb cl ci
      constructor <;> simp_all [-List.countP_eq_zero, -List.countP_pos_iff, published, inFlight, MainPc.rank]
      all_goals omega
    · simp [Chan.send, hroom] at hs
  · simp at hs

set_option maxHeartbeats 1000000 in
theorem handoff_step_inv {o : Options} {urls : List String} {k : Nat}
    {s s1 : State} (h : Inv o urls s) (hs : stepHandoff k s = some s1) :
    Inv o urls s1 := by
  have hnp := fun w (hw : s.workers.get? k = some w) => h.not_produce hw
  obtain ⟨h1, h2, h3, h0, h4, h5, h6, h7, h8, h9, h10, h11, h12⟩ := h
  unfold stepHandoff at hs
  split at hs
  · rename_i res hw
    have hpc := hnp _ hw
    have hne : s.workers ≠ [] := by
      intro hnil
      simp [hnil] at hw
    have h4 := h4 hpc
    have h5 := h5 hpc
    split at hs
    · simp at hs
    · split at hs
      · rename_i hopen hempty
        simp only [Option.some.injEq] at hs
        subst hs
        have cb := countP_set_add WorkerPc.busy s.workers k _ .recv hw
        have cl := countP_set_add WorkerPc.live s.workers k _ .recv hw
        have ci := countP_set_add WorkerPc.invoking s.workers k _ .recv hw
        simp only [WorkerPc.busy, WorkerPc.live, WorkerPc.invoking] at cb cl ci
        constructor <;> simp_all [-List.countP_eq_zero, -List.countP_pos_iff, published, inFlight, MainPc.rank]
        all_goals omega
      · simp at hs
  · simp at hs

theorem receive_step_inv {o : Options} {urls : List String}
    {s s1 : State} (h : Inv o urls s) (hs : stepReceive s = some s1) :
    Inv o urls s1 := by
  obtain ⟨h1, h2, h3, h0, h4, h5, h6, h7, h8, h9, h10, h11, h12⟩ := h
  unfold stepReceive at hs
  split at hs
  · rename_i res rest hb
    simp only [Option.some.injEq] at hs
    subst hs
    constructor <;> simp_all [published, inFlight, MainPc.rank]
    all_goals omega
  · simp at hs

theorem step_inv {o : Options} {urls : List String} {a : Action} {s s1 : State}
    (h : Inv o urls s) (hs : step o urls a s = some s1) : Inv o urls s1 := by
  unfold step at hs
  split at hs
  · simp at hs
  · cases a with
    | main => exact Start_step_inv h hs
    | worker k env => exact worker_step_inv h hs
    | handoff k => exact handoff_step_inv h hs
    | receive => exact receive_step_inv h hs

theorem exec_inv {o : Options} {urls : List String} :
    ∀ (as : List Action) {s s1 : State}, Inv o urls s → exec o urls as s = some s1 →
      Inv o urls s1
  | [], s, s1, h, hs => by
    simp only [exec, Option.some.injEq] at hs
    exact hs ▸ h
  | a :: as, s, s1, h, hs => by
    simp only [exec] at hs
    split at hs
    · rename_i s2 h2
      exact exec_inv as (step_inv h h2) hs
    · simp at hs

/-! ## Every run is finite -/

set_option maxHeartbeats 1000000 in
theorem step_measure {o : Options} {urls : List String} {a : Action} {s s1 : State}
    (hs : step o urls a s = some s1) : measure o urls s1 < measure o urls s := by
  unfold step at hs
  split at hs
  · simp at hs
  · cases a with
    | main =>
      simp only at hs
      unfold Start at hs
      split at hs
      · rename_i hpc
        rw [produceRequests_eq] at hs
        simp only [Option.some.injEq] at hs
        subst hs
        simp only [measure, hpc, MainPc.weight, List.length_map]
        omega
      · rename_i i hpc
        split at hs
        · rename_i hlt
          simp only [Option.some.injEq] at hs
          subst hs
          simp only [measure, hpc, MainPc.weight, List.map_append, List.sum_append,
            List.map_cons, List.map_nil, List.sum_cons, List.sum_nil, WorkerPc.weight]
          omega
        · simp only [Option.some.injEq] at hs
          subst hs
          simp only [measure, hpc, MainPc.weight]
          omega
      · rename_i hpc
        simp only [Option.some.injEq] at hs
        subst hs
        simp only [measure, hpc, MainPc.weight]
        omega
      · rename_i hpc
        split at hs
        · simp only [Option.some.injEq] at hs
          subst hs
          simp only [measure, hpc, MainPc.weight]
          omega
        · simp at hs
      · rename_i hpc
        simp only [Option.some.injEq] at hs
        subst hs
        simp only [measure, hpc, MainPc.weight]
        omega
      · simp at hs
    | worker k env =>
      simp only at hs
      unfold worker at hs
      split at hs
      · simp at hs
      · rename_i hw
        split at hs
        · rename_i r rest hq
          simp only [Option.some.injEq] at hs
          subst hs
          have hwt := weight_set_add s.workers k _ (.invoke r) hw
          simp only [WorkerPc.weight] at hwt
          simp only [measure, hq, List.length_cons]
          omega
        · split at hs
          · simp only [Option.some.injEq] at hs
            subst hs
            have hwt := weight_set_add s.workers k _ .exited hw
            simp only [WorkerPc.weight] at hwt
            simp only [measure]
            omega
          · simp at hs
      · rename_i r hw
        simp only [Option.some.injEq] at hs
        subst hs
        have hwt := weight_set_add s.workers k _ (.send (consumeRequest o env r).1) hw
        simp only [WorkerPc.weight] at hwt
        simp only [measure]
        omega
      · rename_i res hw
        split at hs
        · simp only [Option.some.injEq] at hs
          subst hs
          have hwt := weight_set_add s.workers k _ .exited hw
          simp only [WorkerPc.weight] at hwt
          simp only [measure]
          omega
        · by_cases hroom : s.resultCh.buf.length < s.resultCh.cap
          · simp only [Chan.send, hroom, if_true, Option.some.injEq] at hs
            subst hs
            have hwt := weight_set_add s.workers k _ .recv hw
            simp only [WorkerPc.weight] at hwt
            simp only [measure, List.length_append, List.length_cons, List.length_nil]
            omega
          · simp [Chan.send, hroom] at hs
      · simp at hs
    | handoff k =>
      simp only at hs
      unfold stepHandoff at hs
      split at hs
      · rename_i res hw
        split at hs
        · simp at hs
        · split at hs
          · simp only [Option.some.injEq] at hs
            subst hs
            have hwt := weight_set_add s.workers k _ .recv hw
            simp only [WorkerPc.weight] at hwt
            simp only [measure]
            omega
          · simp at hs
      · simp at hs
    | receive =>
      simp only at hs
      unfold stepReceive at hs
      split at hs
      · rename_i res rest hb
        simp only [Option.some.injEq] at hs
        subst hs
        simp only [measure, hb, List.length_cons]
        omega
      · simp at hs

theorem exec_measure {o : Options} {urls : List String} :
    ∀ (as : List Action) {s s1 : State}, exec o urls as s = some s1 →
      as.length + measure o urls s1 ≤ measure o urls s
  | [], s, s1, hs => by
    simp only [exec, Option.some.injEq] at hs
    subst hs
    simp
  | a :: as, s, s1, hs => by
    simp only [exec] at hs
    split at hs
    · rename_i s2 h2
      have := exec_measure as hs
      have := step_measure h2
      simp only [List.length_cons]
      omega
    · simp at hs

theorem measure_init (o : Options) (urls : List String) (cap : Nat) :
    measure o urls (init cap) = 4 * urls.length + 2 * o.Concurrency.toNat + 6 := by
  simp [measure, init, MainPc.weight, Chan.make]

/-! ## No run gets stuck before `Start` returns -/

theorem step_enabled {o : Options} {urls : List String} {s : State}
    (h : Inv o urls s) (hpc : s.pc ≠ .done) : ∃ a, (step o urls a s).isSome = true := by
  have hnp : s.panicked = false := h.noPanic
  have hopen : s.resultCh.closed = false := by
    cases hc : s.resultCh.closed
    · rfl
    · exact absurd (h.resClosed.mp hc) hpc
  cases hp : s.pc with
  | produce => exact ⟨.main, by simp [step, hnp, Start, hp, produceRequests_eq]⟩
  | loop i =>
    by_cases hlt : (i : Int) < o.Concurrency
    · exact ⟨.main, by simp [step, hnp, Start, hp, hlt]⟩
    · exact ⟨.main, by simp [step, hnp, Start, hp, hlt]⟩
  | closeQueue => exact ⟨.main, by simp [step, hnp, Start, hp]⟩
  | closeResult => exact ⟨.main, by simp [step, hnp, Start, hp]⟩
  | done => exact absurd hp hpc
  | wait =>
    by_cases hwg : s.wg = 0
    · exact ⟨.main, by simp [step, hnp, Start, hp, hwg]⟩
    · have hq : s.requestQueueCh.closed = true := h.queueClosed.mpr (by simp [hp, MainPc.rank])
      have hl : 0 < s.workers.countP WorkerPc.live := by
        have := h.wgLive
        omega
      obtain ⟨k, w, hk, hw⟩ := exists_live_worker _ hl
      have hk1 : s.workers[k]? = some w := by simpa using hk
      cases w with
      | exited => simp [WorkerPc.live] at hw
      | recv =>
        cases hb : s.requestQueueCh.buf with
        | nil => exact ⟨.worker k Env.refuse, by simp [step, hnp, worker, hk1, hb, hq]⟩
        | cons r rest => exact ⟨.worker k Env.refuse, by simp [step, hnp, worker, hk1, hb]⟩
      | invoke r => exact ⟨.worker k Env.refuse, by simp [step, hnp, worker, hk1]⟩
      | send res =>
        by_cases hroom : s.resultCh.buf.length < s.resultCh.cap
        · exact ⟨.worker k Env.refuse, by
            simp [step, hnp, worker, hk1, hopen, Chan.send, hroom]⟩
        · cases hb : s.resultCh.buf with
          | nil => exact ⟨.handoff k, by simp [step, hnp, stepHandoff, hk1, hopen, hb]⟩
          | cons x rest => exact ⟨.receive, by simp [step, hnp, stepReceive, hb]⟩

theorem step_progress {o : Options} {urls : List String} {s : State}
    (h : Inv o urls s) (hpc : s.pc ≠ .done) : ∃ a s1, step o urls a s = some s1 := by
  obtain ⟨a, ha⟩ := step_enabled h hpc
  exact ⟨a, Option.isSome_iff_exists.mp ha⟩

theorem exec_complete {o : Options} {urls : List String} :
    ∀ (n : Nat) (s : State), measure o urls s ≤ n → Inv o urls s →
      ∃ as s1, exec o urls as s = some s1 ∧ s1.pc = .done
  | 0, s, hn, h => by
    by_cases hpc : s.pc = .done
    · exact ⟨[], s, rfl, hpc⟩
    · obtain ⟨a, s1, hs⟩ := step_progress h hpc
      have := step_measure hs
      omega
  | n + 1, s, hn, h => by
    by_cases hpc : s.pc = .done
    · exact ⟨[], s, rfl, hpc⟩
    · obtain ⟨a, s1, hs⟩ := step_progress h hpc
      have hm := step_measure hs
      obtain ⟨as, s2, h2, hd⟩ := exec_complete n s1 (by omega) (step_inv h hs)
      exact ⟨a :: as, s2, by simp [exec, hs, h2], hd⟩

/-! ## What the invariant gives -/

theorem busy_le_live (l : List WorkerPc) :
    l.countP WorkerPc.busy ≤ l.countP WorkerPc.live :=
  List.countP_mono_left (fun w _ hw => by cases w <;> simp_all [WorkerPc.busy, WorkerPc.live])

theorem all_exited (l : List WorkerPc) (h : l.countP WorkerPc.live = 0) :
    ∀ w ∈ l, w = .exited := by
  intro w hw
  have := List.countP_eq_zero.mp h w hw
  cases w <;> simp_all [WorkerPc.live]

theorem reach_inv {o : Options} {urls : List String} {cap : Nat} {as : List Action}
    {s : State} (hrun : exec o urls as (init cap) = some s) : Inv o urls s :=
  exec_inv as (init_inv o urls cap) hrun

theorem Inv.workers_le {o : Options} {urls : List String} {s : State} (h : Inv o urls s) :
    s.workers.length ≤ o.Concurrency.toNat := by
  cases hp : s.pc with
  | produce => simp [h.fresh hp]
  | loop i => have := h.spawned i hp; omega
  | closeQueue => exact le_of_eq (h.pool (by simp [hp, MainPc.rank]))
  | wait => exact le_of_eq (h.pool (by simp [hp, MainPc.rank]))
  | closeResult => exact le_of_eq (h.pool (by simp [hp, MainPc.rank]))
  | done => exact le_of_eq (h.pool (by simp [hp, MainPc.rank]))

theorem Inv.published_le {o : Options} {urls : List String} {s : State}
    (h : Inv o urls s) : (published s).length ≤ urls.length := by
  by_cases hp : s.pc = .produce
  · simp [(h.idle (h.fresh hp)).1]
  · have := h.conserve hp
    omega

theorem Inv.joined_facts {o : Options} {urls : List String} {s : State}
    (h : Inv o urls s) (hr : 4 ≤ s.pc.rank) :
    s.requestQueueCh.closed = true ∧ (∀ w ∈ s.workers, w = .exited) ∧
      s.workers.length = o.Concurrency.toNat ∧ inFlight s = 0 ∧
      (published s).length + s.requestQueueCh.buf.length = urls.length := by
  have hwg := h.joined hr
  have hlive : s.workers.countP WorkerPc.live = 0 := by
    have := h.wgLive
    omega
  have hbusy : inFlight s = 0 := by
    have := busy_le_live s.workers
    simp only [inFlight]
    omega
  have hp : s.pc ≠ .produce := by
    intro hp
    simp [hp, MainPc.rank] at hr
  have hcons := h.conserve hp
  exact ⟨h.queueClosed.mpr (by omega), all_exited _ hlive, h.pool (by omega), hbusy,
    by omega⟩

theorem Inv.closed_count {o : Options} {urls : List String} {s : State}
    (h : Inv o urls s) (hc : 1 ≤ o.Concurrency) (hr : 4 ≤ s.pc.rank) :
    (published s).length = urls.length := by
  obtain ⟨_, _, hlen, _, hsum⟩ := h.joined_facts hr
  have hwg := h.joined hr
  have hq := h.drained (by omega)
  simp [hq] at hsum
  exact hsum

theorem Inv.rank_of_closed {o : Options} {urls : List String} {s : State}
    (h : Inv o urls s) (hc : s.pc = .closeResult ∨ s.resultCh.closed = true) :
    4 ≤ s.pc.rank := by
  rcases hc with hc | hc
  · simp [hc, MainPc.rank]
  · simp [h.resClosed.mp hc, MainPc.rank]

theorem step_after_close {o : Options} {urls : List String} {a : Action} {s s1 : State}
    (h : Inv o urls s) (hc : s.resultCh.closed = true) (hs : step o urls a s = some s1) :
    published s1 = published s ∧ s1.resultCh.closed = true ∧ s1.workers = s.workers ∧
      s1.transportLog = s.transportLog ∧ s1.panicked = false := by
  have hd := h.resClosed.mp hc
  have hex := (h.joined_facts (by simp [hd, MainPc.rank])).2.1
  have hnp := (step_inv h hs).noPanic
  unfold step at hs
  split at hs
  · simp at hs
  · cases a with
    | main => simp [Start, hd] at hs
    | worker k env =>
      simp only at hs
      unfold worker at hs
      cases hk : s.workers[k]? with
      | none => simp [hk] at hs
      | some w =>
        have := hex w (List.mem_iff_get?.mpr ⟨k, by simpa using hk⟩)
        subst this
        simp [hk] at hs
    | handoff k =>
      simp only at hs
      unfold stepHandoff at hs
      cases hk : s.workers[k]? with
      | none => simp [hk] at hs
      | some w =>
        have := hex w (List.mem_iff_get?.mpr ⟨k, by simpa using hk⟩)
        subst this
        simp [hk] at hs
    | receive =>
      simp only at hs
      unfold stepReceive at hs
      split at hs
      · rename_i res rest hb
        simp only [Option.some.injEq] at hs
        subst hs
        simp [published, hb, hc] at hnp ⊢
        exact hnp
      · simp at hs

theorem reach_complete {o : Options} {urls : List String} {s : State} (h : Inv o urls s) :
    ∃ bs s1, exec o urls bs s = some s1 ∧ s1.resultCh.closed = true ∧ Inv o urls s1 := by
  obtain ⟨bs, s1, hrun, hd⟩ := exec_complete (measure o urls s) s (le_refl _) h
  have h1 := exec_inv bs h hrun
  exact ⟨bs, s1, hrun, h1.resClosed.mpr hd, h1⟩

/-! ## Headers -/

theorem values_set_same (h : Header) (key value name : String)
    (hk : CanonicalMIMEHeaderKey key = CanonicalMIMEHeaderKey name) :
    Header.Values (Header.Set h key value) name = [value] := by
  simp [Header.Values, Header.Set, hk]

theorem find_filter_ne (c d : String) (hcd : c ≠ d) :
    ∀ h : Header, (h.filter (fun e => !(e.1 == c))).find? (fun e => e.1 == d)
      = h.find? (fun e => e.1 == d)
  | [] => by simp
  | e :: h => by
    by_cases h1 : e.1 = c
    · have h2 : ¬ e.1 = d := fun hd => hcd (h1 ▸ hd)
      simp [List.filter_cons, List.find?_cons, h1, hcd, find_filter_ne c d hcd h]
    · by_cases h2 : e.1 = d
      · have h3 : ¬ d = c := fun hd => hcd hd.symm
        simp [List.filter_cons, List.find?_cons, h1, h2, h3]
      · simp [List.filter_cons, List.find?_cons, h1, h2, find_filter_ne c d hcd h]

theorem values_set_other (h : Header) (key value name : String)
    (hk : CanonicalMIMEHeaderKey key ≠ CanonicalMIMEHeaderKey name) :
    Header.Values (Header.Set h key value) name = Header.Values h name := by
  simp only [Header.Values, Header.Set, List.find?_cons]
  have : ((CanonicalMIMEHeaderKey key, [value]).1 == CanonicalMIMEHeaderKey name) = false := by
    simpa using hk
  rw [this, find_filter_ne _ _ hk]

theorem foldl_set_keep (name : String) :
    ∀ (l : List (String × String)) (h : Header),
      (∀ e ∈ l, CanonicalMIMEHeaderKey e.1 ≠ CanonicalMIMEHeaderKey name) →
      Header.Values (l.foldl (fun h kv => Header.Set h kv.1 kv.2) h) name
        = Header.Values h name
  | [], h, _ => rfl
  | e :: l, h, hl => by
    rw [List.foldl_cons, foldl_set_keep name l _ (fun e1 he1 => hl e1 (List.mem_cons_of_mem _ he1)),
      values_set_other _ _ _ _ (hl e (List.mem_cons_self _ _))]

theorem foldl_set_carries (name value : String) :
    ∀ (l : List (String × String)) (h : Header), (name, value) ∈ l →
      (∀ e ∈ l, CanonicalMIMEHeaderKey e.1 = CanonicalMIMEHeaderKey name → e = (name, value)) →
      Header.Values (l.foldl (fun h kv => Header.Set h kv.1 kv.2) h) name = [value]
  | [], h, hm, _ => by simp at hm
  | e :: l, h, hm, hu => by
    rw [List.foldl_cons]
    by_cases hin : (name, value) ∈ l
    · exact foldl_set_carries name value l _ hin
        (fun e1 he1 => hu e1 (List.mem_cons_of_mem _ he1))
    · have he : e = (name, value) := by
        rcases List.mem_cons.mp hm with h1 | h1
        · exact h1.symm
        · exact absurd h1 hin
      rw [foldl_set_keep name l]
      · subst he
        exact values_set_same _ _ _ _ rfl
      · intro e1 he1 hc
        exact hin (hu e1 (List.mem_cons_of_mem _ he1) hc ▸ he1)

theorem buildRequest_carries (o : Options) (r : request) (u name value : String)
    (hm : (name, value) ∈ r.header)
    (hu : ∀ e ∈ r.header,
      CanonicalMIMEHeaderKey e.1 = CanonicalMIMEHeaderKey name → e = (name, value)) :
    Header.Values (buildRequest o r u).Header name = [value] := by
  simp only [buildRequest]
  exact foldl_set_carries name value r.header _ hm hu

theorem invokeRequest_log (o : Options) (env : Env) (r : request) :
    ∀ req ∈ (invokeRequest o env r).2, ∃ u, req = buildRequest o r u := by
  intro req hreq
  simp only [invokeRequest] at hreq
  cases h1 : env.newRequest r.method r.url with
  | error e => simp [h1] at hreq
  | ok u =>
    refine ⟨u, ?_⟩
    simp only [h1] at hreq
    cases h2 : env.Do (buildRequest o r u) with
    | error e => simpa [h2] using hreq
    | ok resp =>
      simp only [h2] at hreq
      cases h3 : env.readAll with
      | error e => simpa [h3] using hreq
      | ok body =>
        simp only [h3] at hreq
        cases h4 : env.copy with
        | some e => simpa [h4] using hreq
        | none => simpa [h4] using hreq

/-! ## The default client -/

theorem clientDo_noFollow (o0 o : Options) (wire : Wire) (op : String) (fuel : Nat)
    (req : HttpRequest) (reqs : List HttpRequest) (resp : Response)
    (hf : o.FollowRedirects = false) (hw : wire.send req = .ok resp)
    (hloc : Header.Get resp.Header "Location" = "" ∨ ∃ next, wire.nextHop req resp = .ok next) :
    clientDo (initHTTPClient o0) o wire op (fuel + 1) req reqs = (.ok resp, [req]) := by
  simp only [clientDo, hw]
  by_cases hr : isRedirect resp.StatusCode = true
  · rcases hloc with hl | ⟨next, hn⟩
    · simp [hr, hl]
    · by_cases hl : Header.Get resp.Header "Location" = ""
      · simp [hr, hl]
      · simp [hr, hl, hn, initHTTPClient, hf]
  · simp [hr]

/-! ## The claims -/

/-- C8: `options.New` returns a configuration with Method = GET, TimeoutMs = 60000,
Concurrency = 8, FollowRedirects = false, an empty Header mapping, an empty Body, and
empty UserAgent and Cookie. -/
theorem New_defaults :
    Options.New.Method = "GET" ∧ Options.New.TimeoutMs = 60000 ∧
      Options.New.Concurrency = 8 ∧ Options.New.FollowRedirects = false ∧
      Options.New.Header = [] ∧ Options.New.Body = [] ∧
      Options.New.UserAgent = "" ∧ Options.New.Cookie = "" := by
  refine ⟨rfl, rfl, rfl, rfl, rfl, rfl, rfl, rfl⟩

/-- C10: for every URL list, `produceRequests` returns (it never blocks) an open queue of
capacity `len(urls)` that holds exactly one descriptor per URL, in submission order,
each carrying that URL together with the active configuration's Method, Body and
Header. -/
theorem produceRequests_queue (o : Options) (urls : List String) :
    ∃ q, produceRequests o urls = some q ∧ q.cap = urls.length ∧ q.closed = false ∧
      q.buf.length = urls.length ∧
      q.buf = urls.map (fun url =>
        { url := url, method := o.Method, body := o.Body, header := o.Header }) := by
  refine ⟨_, produceRequests_eq o urls, rfl, rfl, ?_, rfl⟩
  simp

/-- C3: for every request descriptor and every outcome of request construction,
transport call, body read and drain, the Result that `consumeRequest` publishes is a
success (Response and Body present, Err absent) or a failure (Err present, Response and
Body absent), and never both. -/
theorem consumeRequest_success_or_failure (o : Options) (env : Env) (r : request) :
    ((consumeRequest o env r).1.isSuccess = true ∨ (consumeRequest o env r).1.isFailure = true)
      ∧ ¬ ((consumeRequest o env r).1.isSuccess = true
            ∧ (consumeRequest o env r).1.isFailure = true) := by
  simp only [consumeRequest, invokeRequest]
  split
  · simp [Result.isSuccess, Result.isFailure]
  · split
    · simp [Result.isSuccess, Result.isFailure]
    · split
      · simp [Result.isSuccess, Result.isFailure]
      · split <;> simp [Result.isSuccess, Result.isFailure]

/-- C4 (amended): for every configuration and every entry (name, value) of its header
mapping whose canonical name (header names are case-insensitive) is shared by no other
entry, the request that `invokeRequest` hands to the transport carries exactly that
value under that name, whatever the configuration's UserAgent and Cookie fields are;
and a request is handed over whenever request construction succeeds. -/
theorem invokeRequest_carries_header (o : Options) (env : Env) (r : request)
    (name value : String) (hr : r.header = o.Header) (hm : (name, value) ∈ o.Header)
    (hu : ∀ e ∈ o.Header,
      CanonicalMIMEHeaderKey e.1 = CanonicalMIMEHeaderKey name → e = (name, value)) :
    (∀ req ∈ (invokeRequest o env r).2, Header.Values req.Header name = [value]) ∧
      (∀ u, env.newRequest r.method r.url = .ok u →
        (invokeRequest o env r).2 = [buildRequest o r u]) := by
  constructor
  · intro req hreq
    obtain ⟨u, hu1⟩ := invokeRequest_log o env r req hreq
    rw [hu1]
    exact buildRequest_carries o r u name value (hr ▸ hm) (hr ▸ hu)
  · intro u hnew
    simp only [invokeRequest, hnew]
    split
    · rfl
    · split
      · rfl
      · split <;> rfl

/-- C4, an instance: the configuration sets UserAgent and Cookie and its header mapping
has entries named User-Agent and Cookie; the request carries the mapping's values. -/
theorem invokeRequest_carries_header_witness :
    (∀ req ∈ (invokeRequest
          { Options.New with
              UserAgent := "virgo/0.1", Cookie := "a=1"
              Header := [("User-Agent", "Custom-Agent/1.0"), ("Cookie", "b=2")] }
          (Env.serve [])
          { url := "http://example.org/", method := "GET", body := []
            header := [("User-Agent", "Custom-Agent/1.0"), ("Cookie", "b=2")] }).2,
        Header.Values req.Header "User-Agent" = ["Custom-Agent/1.0"]) ∧
      (invokeRequest
          { Options.New with
              UserAgent := "virgo/0.1", Cookie := "a=1"
              Header := [("User-Agent", "Custom-Agent/1.0"), ("Cookie", "b=2")] }
          (Env.serve [])
          { url := "http://example.org/", method := "GET", body := []
            header := [("User-Agent", "Custom-Agent/1.0"), ("Cookie", "b=2")] }).2
        = [buildRequest
          { Options.New with
              UserAgent := "virgo/0.1", Cookie := "a=1"
              Header := [("User-Agent", "Custom-Agent/1.0"), ("Cookie", "b=2")] }
          { url := "http://example.org/", method := "GET", body := []
            header := [("User-Agent", "Custom-Agent/1.0"), ("Cookie", "b=2")] }
          "http://example.org/"] :=
  have h := invokeRequest_carries_header
    { Options.New with
        UserAgent := "virgo/0.1", Cookie := "a=1"
        Header := [("User-Agent", "Custom-Agent/1.0"), ("Cookie", "b=2")] }
    (Env.serve [])
    { url := "http://example.org/", method := "GET", body := []
      header := [("User-Agent", "Custom-Agent/1.0"), ("Cookie", "b=2")] }
    "User-Agent" "Custom-Agent/1.0" rfl (by decide) (by decide)
  ⟨h.1, h.2 "http://example.org/" rfl⟩

/-- C4, the claim as stated fails: with the two entries x-token: a and X-Token: b in the
header mapping, the request handed to the transport carries only the entry visited
last, in either iteration order, so one entry is never carried. -/
theorem invokeRequest_header_collision :
    (invokeRequest { Options.New with Header := [("x-token", "a"), ("X-Token", "b")] }
        (Env.serve [])
        { url := "http://example.org/", method := "GET", body := []
          header := [("x-token", "a"), ("X-Token", "b")] }).2.map
      (fun req => (Header.Values req.Header "x-token", Header.Values req.Header "X-Token"))
      = [(["b"], ["b"])] ∧
    (invokeRequest { Options.New with Header := [("X-Token", "b"), ("x-token", "a")] }
        (Env.serve [])
        { url := "http://example.org/", method := "GET", body := []
          header := [("X-Token", "b"), ("x-token", "a")] }).2.map
      (fun req => (Header.Values req.Header "x-token", Header.Values req.Header "X-Token"))
      = [(["a"], ["a"])] := by
  decide

/-- C7 (amended): when the active configuration has FollowRedirects = false, the redirect
check of the default client answers `ErrUseLastResponse`, so for a target answering HTTP
301 whose Location header is absent or parses as a URL the client returns that response
after a single round trip, and the Result of `consumeRequest` has that response of
status 301, its body, and no Err. -/
theorem noFollow_yields_301 (o0 o : Options) (r : request) (u : String) (wire : Wire)
    (fuel : Nat) (resp : Response) (body : Bytes) (hf : o.FollowRedirects = false)
    (hw : wire.send (buildRequest o r u) = .ok resp) (hs : resp.StatusCode = 301)
    (hloc : Header.Get resp.Header "Location" = "" ∨
      ∃ next, wire.nextHop (buildRequest o r u) resp = .ok next) :
    (∀ next via, (initHTTPClient o0).CheckRedirect o next via = some ErrUseLastResponse) ∧
      clientDo (initHTTPClient o0) o wire (urlErrorOp (buildRequest o r u).Method) (fuel + 1)
          (buildRequest o r u) []
        = (.ok resp, [buildRequest o r u]) ∧
      (consumeRequest o
          { newRequest := fun _ _ => .ok u, Do := defaultDo o0 o wire (fuel + 1),
            readAll := .ok body, copy := none } r).1
        = { Response := some resp, Body := some body, Err := none } ∧
      (consumeRequest o
          { newRequest := fun _ _ => .ok u, Do := defaultDo o0 o wire (fuel + 1),
            readAll := .ok body, copy := none } r).1.Response.map (fun x => x.StatusCode)
        = some 301 := by
  have hdo := clientDo_noFollow o0 o wire (urlErrorOp (buildRequest o r u).Method) fuel
    (buildRequest o r u) [] resp hf hw hloc
  refine ⟨?_, hdo, ?_, ?_⟩
  · intro next via
    simp [initHTTPClient, hf]
  · simp [consumeRequest, invokeRequest, defaultDo, hdo]
  · simp [consumeRequest, invokeRequest, defaultDo, hdo, hs]

/-- C7, an instance: the target answers 301 with a Location whose target would answer
200; with the configuration of `options.New` the Result carries the 301. -/
theorem noFollow_yields_301_witness :
    (consumeRequest Options.New
        { newRequest := fun _ _ => .ok "http://example.org/old"
          Do := defaultDo Options.New Options.New redirectingWire (9 + 1)
          readAll := .ok [60, 97, 62], copy := none }
        { url := "http://example.org/old", method := "GET", body := [], header := [] }).1
      = { Response := some { StatusCode := 301
                             Header := [("Location", ["http://example.org/new"])] }
          Body := some [60, 97, 62], Err := none } :=
  (noFollow_yields_301 Options.New Options.New
    { url := "http://example.org/old", method := "GET", body := [], header := [] }
    "http://example.org/old" redirectingWire 9
    { StatusCode := 301, Header := [("Location", ["http://example.org/new"])] }
    [60, 97, 62] rfl rfl rfl (Or.inr ⟨_, rfl⟩)).2.2.1

/-- C7, the claim as stated fails: with FollowRedirects = false, a target answering HTTP
301 with the Location `http://[::1`, which does not parse as a URL, yields a Result with
an Err and no Response: `Do` fails on the Location before it asks the redirect check. -/
theorem noFollow_bad_Location_yields_error :
    Options.New.FollowRedirects = false ∧
      brokenLocationWire.send
          (buildRequest Options.New
            { url := "http://example.org/old", method := "GET", body := [], header := [] }
            "http://example.org/old")
        = .ok { StatusCode := 301, Header := [("Location", ["http://[::1"])] } ∧
      (consumeRequest Options.New
          { newRequest := fun _ _ => .ok "http://example.org/old"
            Do := defaultDo Options.New Options.New brokenLocationWire (9 + 1)
            readAll := .ok [], copy := none }
          { url := "http://example.org/old", method := "GET", body := [], header := [] }).1
        = { Response := none, Body := none
            Err := some (urlError "Get" "http://example.org/old"
              ("failed to parse Location header " ++ quote "http://[::1" ++ ": "
                ++ "missing closing bracket in host")) } := by
  refine ⟨rfl, rfl, ?_⟩
  decide

/-- With FollowRedirects = true the redirect check answers nil and the default client
follows the redirect: for the server of `redirectingWire` the Result is the 200 of
`/new`, after two round trips. -/
theorem follow_yields_target :
    (consumeRequest { Options.New with FollowRedirects := true }
        { newRequest := fun _ _ => .ok "http://example.org/old"
          Do := defaultDo Options.New { Options.New with FollowRedirects := true }
            redirectingWire (9 + 1)
          readAll := .ok [], copy := none }
        { url := "http://example.org/old", method := "GET", body := [], header := [] }).1
      = { Response := some { StatusCode := 200, Header := [] }, Body := some [], Err := none } ∧
    (clientDo (initHTTPClient Options.New) { Options.New with FollowRedirects := true }
        redirectingWire "Get" (9 + 1)
        { Method := "GET", URL := "http://example.org/old", Header := [], Body := [] } []).2.map
      (fun req => req.URL) = ["http://example.org/old", "http://example.org/new"] := by
  decide

/-- C1 (amended): when Concurrency is at least 1, for every URL list, every capacity of
the result channel and every mix of per-URL outcomes, every run of `Start` is finite,
never has more than `len(urls)` Results published, can always be continued until the
result stream is closed, and has exactly `len(urls)` Results published whenever the
result stream is closed. -/
theorem Start_publishes_one_Result_per_url (o : Options) (urls : List String) (cap : Nat)
    (as : List Action) (s : State) (hc : 1 ≤ o.Concurrency)
    (hrun : exec o urls as (init cap) = some s) :
    (published s).length ≤ urls.length ∧
      (s.resultCh.closed = true → (published s).length = urls.length) ∧
      as.length ≤ 4 * urls.length + 2 * o.Concurrency.toNat + 6 ∧
      (∃ bs s1, exec o urls bs s = some s1 ∧ s1.resultCh.closed = true ∧
        (published s1).length = urls.length) := by
  have h := reach_inv hrun
  refine ⟨h.published_le, ?_, ?_, ?_⟩
  · intro hcl
    exact h.closed_count hc (h.rank_of_closed (Or.inr hcl))
  · have := exec_measure as hrun
    rw [measure_init] at this
    omega
  · obtain ⟨bs, s1, hb, hcl, h1⟩ := reach_complete h
    exact ⟨bs, s1, hb, hcl, h1.closed_count hc (h1.rank_of_closed (Or.inr hcl))⟩

/-- C1, an instance: two workers, the same URL twice, one success and one failure. -/
theorem Start_publishes_one_Result_per_url_witness :
    1 ≤ demoOptions.Concurrency ∧
      exec demoOptions demoUrls demoSchedule (init 0) = some demoFinal ∧
      demoFinal.resultCh.closed = true ∧ (published demoFinal).length = demoUrls.length :=
  ⟨by decide, rfl, rfl,
    (Start_publishes_one_Result_per_url demoOptions demoUrls 0 demoSchedule demoFinal
      (by decide) rfl).2.1 rfl⟩

/-- C1, the claim as stated fails: with Concurrency = 0 and one URL, `Start` closes the
result stream having published no Result. -/
theorem Start_zero_workers_publishes_nothing :
    (exec { Options.New with Concurrency := 0 } ["http://example.org/"] noWorkerSchedule
        (init 0)).map (fun s => (s.resultCh.closed, (published s).length))
      = some (true, 0) ∧ ["http://example.org/"].length = 1 := by
  decide

/-- C2 (amended): for every URL list, when the active configuration's Concurrency is zero
or negative, `Start` reports no error: every run is finite, starts no worker, invokes
the transport zero times, publishes no Result, does not panic, and can always be
continued until the result stream is closed. -/
theorem Start_nonpositive_concurrency (o : Options) (urls : List String) (cap : Nat)
    (as : List Action) (s : State) (hc : o.Concurrency ≤ 0)
    (hrun : exec o urls as (init cap) = some s) :
    s.workers = [] ∧ s.transportLog = [] ∧ published s = [] ∧ reportedErrors s = [] ∧
      as.length ≤ 4 * urls.length + 6 ∧
      (∃ bs s1, exec o urls bs s = some s1 ∧ s1.resultCh.closed = true) := by
  have h := reach_inv hrun
  have hw : s.workers = [] := by
    have := h.workers_le
    have h0 : o.Concurrency.toNat = 0 := by omega
    exact List.length_eq_zero.mp (by omega)
  have hi := h.idle hw
  refine ⟨hw, hi.2, hi.1, ?_, ?_, ?_⟩
  · simp [reportedErrors, hi.1, h.noPanic]
  · have := exec_measure as hrun
    rw [measure_init] at this
    omega
  · obtain ⟨bs, s1, hb, hcl, _⟩ := reach_complete h
    exact ⟨bs, s1, hb, hcl⟩

/-- C2, an instance: Concurrency = 0 and two URLs. -/
theorem Start_nonpositive_concurrency_witness :
    ({ Options.New with Concurrency := 0 } : Options).Concurrency ≤ 0 ∧
      exec { Options.New with Concurrency := 0 } demoUrls noWorkerSchedule (init 0)
        = some noWorkerFinal ∧
      noWorkerFinal.workers = [] ∧ noWorkerFinal.transportLog = [] ∧
      published noWorkerFinal = [] ∧ reportedErrors noWorkerFinal = [] :=
  have h := Start_nonpositive_concurrency { Options.New with Concurrency := 0 } demoUrls 0
    noWorkerSchedule noWorkerFinal (by decide) rfl
  ⟨by decide, rfl, h.1, h.2.1, h.2.2.1, h.2.2.2.1⟩

/-- C2, the claim as stated fails: with Concurrency = -1 the run of `Start` returns and
closes the result stream, and nothing has been reported: no Result, no error, no
panic. -/
theorem Start_reports_no_configuration_error :
    (exec { Options.New with Concurrency := -1 } ["http://example.org/"] noWorkerSchedule
        (init 0)).map (fun s => (s.pc, s.resultCh.closed, reportedErrors s, published s))
      = some (.done, true, [], []) := by
  decide

/-- C5: in every run of `Start`, when the goroutine of `Start` is about to close the
result stream or has closed it, the request queue has been closed, every started worker
has terminated, no request is in flight, every descriptor taken from the queue has had
its Result published, and nothing has panicked; once the stream is closed no step
publishes anything. -/
theorem resultCh_closed_after_workers (o : Options) (urls : List String) (cap : Nat)
    (as : List Action) (s : State) (hrun : exec o urls as (init cap) = some s)
    (hclose : s.pc = .closeResult ∨ s.resultCh.closed = true) :
    s.requestQueueCh.closed = true ∧ (∀ w ∈ s.workers, w = .exited) ∧
      s.workers.length = o.Concurrency.toNat ∧ inFlight s = 0 ∧
      (published s).length + s.requestQueueCh.buf.length = urls.length ∧
      s.panicked = false ∧
      (s.resultCh.closed = true → ∀ a s1, step o urls a s = some s1 →
        published s1 = published s ∧ s1.resultCh.closed = true ∧ s1.panicked = false) := by
  have h := reach_inv hrun
  obtain ⟨h1, h2, h3, h4, h5⟩ := h.joined_facts (h.rank_of_closed hclose)
  refine ⟨h1, h2, h3, h4, h5, h.noPanic, ?_⟩
  intro hcl a s1 hs
  obtain ⟨g1, g2, _, _, g5⟩ := step_after_close h hcl hs
  exact ⟨g1, g2, g5⟩

/-- C5, an instance: at the end of the run of two workers over two URLs. -/
theorem resultCh_closed_after_workers_witness :
    exec demoOptions demoUrls demoSchedule (init 0) = some demoFinal ∧
      demoFinal.resultCh.closed = true ∧ demoFinal.requestQueueCh.closed = true ∧
      (∀ w ∈ demoFinal.workers, w = .exited) ∧ inFlight demoFinal = 0 :=
  have h := resultCh_closed_after_workers demoOptions demoUrls 0 demoSchedule demoFinal rfl
    (Or.inr rfl)
  ⟨rfl, rfl, h.1, h.2.1, h.2.2.2.1⟩

/-- C6 (amended): `Start` starts exactly max(Concurrency, 0) workers (never more at any
point of a run, exactly that many once the loop is left), each holding at most one
descriptor, so at every point of a run the requests in flight (taken from the queue and
not yet published as a Result) number at most max(Concurrency, 0). -/
theorem at_most_Concurrency_in_flight (o : Options) (urls : List String) (cap : Nat)
    (as : List Action) (s : State) (hrun : exec o urls as (init cap) = some s) :
    s.workers.length ≤ o.Concurrency.toNat ∧
      (2 ≤ s.pc.rank → s.workers.length = o.Concurrency.toNat) ∧
      inFlight s ≤ s.workers.length ∧ inFlight s ≤ o.Concurrency.toNat ∧
      (s.pc ≠ .produce →
        inFlight s = urls.length - s.requestQueueCh.buf.length - (published s).length) := by
  have h := reach_inv hrun
  have hle : inFlight s ≤ s.workers.length := List.countP_le_length _
  refine ⟨h.workers_le, h.pool, hle, le_trans hle h.workers_le, ?_⟩
  intro hp
  have := h.conserve hp
  omega

/-- C6, an instance: two workers, both with a request in flight. -/
theorem at_most_Concurrency_in_flight_witness :
    exec demoOptions demoUrls (demoSchedule.take 9) (init 0) = some demoMid ∧
      demoMid.workers.length = 2 ∧ inFlight demoMid = 2 ∧
      inFlight demoMid ≤ demoOptions.Concurrency.toNat :=
  ⟨rfl, rfl, rfl,
    (at_most_Concurrency_in_flight demoOptions demoUrls 0 (demoSchedule.take 9) demoMid
      rfl).2.2.2.1⟩

/-- C6, the claim as stated fails: with Concurrency = -1 `Start` starts zero workers, which
is not Concurrency workers, and the zero requests in flight are not at most
Concurrency. -/
theorem Start_negative_concurrency_workers :
    (exec { Options.New with Concurrency := -1 } demoUrls noWorkerSchedule (init 0)).map
        (fun s => (s.pc, s.workers.length,
          decide ((s.workers.length : Int) = ({ Options.New with Concurrency := -1 } : Options).Concurrency),
          decide ((inFlight s : Int) ≤ ({ Options.New with Concurrency := -1 } : Options).Concurrency)))
      = some (.done, 0, false, false) := by
  decide

/-- C9: for an empty URL list, every configuration and every capacity of the result
channel, every run of `Start` is finite, has published zero Results and invoked the
transport zero times at every point, does not panic, and can always be continued until
the result stream is closed. -/
theorem Start_empty_urls (o : Options) (cap : Nat) (as : List Action) (s : State)
    (hrun : exec o [] as (init cap) = some s) :
    published s = [] ∧ s.transportLog = [] ∧ s.panicked = false ∧
      as.length ≤ 2 * o.Concurrency.toNat + 6 ∧
      (∃ bs s1, exec o [] bs s = some s1 ∧ s1.resultCh.closed = true ∧
        published s1 = [] ∧ s1.transportLog = []) := by
  have h := reach_inv hrun
  have key : ∀ t : State, Inv o [] t → published t = [] ∧ t.transportLog = [] := by
    intro t ht
    by_cases hp : t.pc = .produce
    · exact ht.idle (ht.fresh hp)
    · have h1 := ht.conserve hp
      have h2 := ht.logged hp
      simp only [List.length_nil] at h1 h2
      exact ⟨List.length_eq_zero.mp (by omega), List.length_eq_zero.mp (by omega)⟩
  refine ⟨(key s h).1, (key s h).2, h.noPanic, ?_, ?_⟩
  · have := exec_measure as hrun
    rw [measure_init] at this
    simp only [List.length_nil] at this
    omega
  · obtain ⟨bs, s1, hb, hcl, h1⟩ := reach_complete h
    exact ⟨bs, s1, hb, hcl, (key s1 h1).1, (key s1 h1).2⟩

/-- C9, an instance: two workers, no URL, a result channel of capacity 4. -/
theorem Start_empty_urls_witness :
    exec demoOptions [] idleSchedule (init 4) = some idleFinal ∧
      idleFinal.resultCh.closed = true ∧ published idleFinal = [] ∧
      idleFinal.transportLog = [] :=
  have h := Start_empty_urls demoOptions 4 idleSchedule idleFinal rfl
  ⟨rfl, rfl, h.1, h.2.1⟩

end Virgo
